import Mathlib

/-!
# Verification of the MVC p2p message framing layer

Shallow embedding of the message framing and validation layer of the
`microvisionchain` repository: the header codec (`CMessageHeader`,
`CExtendedMessageHeader`, `src/protocol.h`), the incoming message assembler
(`CNetMessage`, `src/net/net_message.h`), the inventory descriptor (`CInv`)
and the `CProtoconf` codec.

Bytes are modelled as `Nat` values (each `< 256` where it matters);
byte strings as `List Nat`; machine integers as `Nat` with explicit
`% 2 ^ w` wherever C++ unsigned overflow matters.

Member function bodies that live in `protocol.cpp` / `net_message.cpp`
(not part of the analysed sources, which contain only the headers) are
modelled from the specification; each such definition carries a doc
comment starting with `Modelled from the spec:`.
-/

namespace MVC

/-! ## Little-endian integer codec

`READWRITE(n)` on a `uint32_t`/`uint64_t` writes the integer
little-endian (`serialize.h`, standard Bitcoin-style serialization; the
serializer itself is not among the analysed sources, its little-endian
layout is fixed by the spec §6 "all multi-byte integers little-endian"). -/

/-- Serialize `n` as `k` little-endian bytes (value taken `mod 2^(8k)`). -/
def toLE (n : Nat) : Nat → List Nat
  | 0 => []
  | k + 1 => (n % 256) :: toLE (n / 256) k

/-- Read a little-endian byte list back into a `Nat`. -/
def fromLE : List Nat → Nat
  | [] => 0
  | b :: rest => b + 256 * fromLE rest

/-! ## Header layout constants (`CMessageFields`, `src/protocol.h`) -/

def MESSAGE_START_SIZE : Nat := 4

def COMMAND_SIZE : Nat := 12

def CHECKSUM_SIZE : Nat := 4

def BASIC_MESSAGE_SIZE_SIZE : Nat := 4

def EXTENDED_MESSAGE_SIZE_SIZE : Nat := 8

def BASIC_HEADER_SIZE : Nat :=
  MESSAGE_START_SIZE + COMMAND_SIZE + BASIC_MESSAGE_SIZE_SIZE + CHECKSUM_SIZE

def EXTENDED_HEADER_SIZE : Nat :=
  MESSAGE_START_SIZE + COMMAND_SIZE + BASIC_MESSAGE_SIZE_SIZE + CHECKSUM_SIZE +
    COMMAND_SIZE + EXTENDED_MESSAGE_SIZE_SIZE

/-- The basic header's 4-byte length field value that signals an extended
header: `std::numeric_limits<uint32_t>::max()`, `0xFFFFFFFF`. -/
def LENGTH_SENTINEL : Nat := 0xFFFFFFFF

/-- Modelled from the spec: `NetMsgType::EXTMSG` is declared in
`src/protocol.h` but defined in `protocol.cpp` (not among the analysed
sources); the spec fixes it as the `"extmsg"` marker, NUL-padded to the
12-byte command width. -/
def EXTMSG_COMMAND : List Nat :=
  [101, 120, 116, 109, 115, 103, 0, 0, 0, 0, 0, 0]

/-! ## Header codec (`CExtendedMessageHeader`, `CMessageHeader`) -/

/-- Extended message header: 12-byte extended command plus 8-byte
extended payload length (`CExtendedMessageHeader`, `src/protocol.h`). -/
structure CExtendedMessageHeader where
  pchCommand : List Nat
  nPayloadLength : Nat
deriving DecidableEq

/-- Message header: magic (4), command (12), 4-byte length, 4-byte
checksum, plus optional extended fields (`CMessageHeader`,
`src/protocol.h`).  `complete` is the flag reported by
`CMessageHeader::Complete()`. -/
structure CMessageHeader where
  pchMessageStart : List Nat
  pchCommand : List Nat
  nPayloadLength : Nat
  pchChecksum : List Nat
  extendedFields : Option CExtendedMessageHeader
  complete : Bool
deriving DecidableEq

/-- `CMessageHeader::IsExtended()`: whether the optional extended fields
are present (`extendedFields.has_value()`). -/
def CMessageHeader.IsExtended (h : CMessageHeader) : Bool :=
  h.extendedFields.isSome

/-- Modelled from the spec: the static `CMessageHeader::IsExtended(payloadSize)`
(body in `protocol.cpp`, not among the analysed sources) — extended framing is
chosen exactly when the payload length exceeds the representable range of the
4-byte basic length field or equals the sentinel, i.e. is `≥ 0xFFFFFFFF`. -/
def isExtendedPayloadSize (payloadSize : Nat) : Bool :=
  LENGTH_SENTINEL ≤ payloadSize

/-- Modelled from the spec: `CMessageHeader::GetPayloadLength()` (body in
`protocol.cpp`, not among the analysed sources) — when extended fields are
present the 8-byte extended length is authoritative, otherwise the basic
4-byte length field. -/
def CMessageHeader.GetPayloadLength (h : CMessageHeader) : Nat :=
  match h.extendedFields with
  | some e => e.nPayloadLength
  | none => h.nPayloadLength

/-- Serialization of the extended fields, from the source
`CExtendedMessageHeader::SerializationOp`: 12 command bytes followed by
the 8-byte little-endian payload length. -/
def serializeExtended (e : CExtendedMessageHeader) : List Nat :=
  e.pchCommand ++ toLE e.nPayloadLength 8

/-- Serialization of a header, from the source
`CMessageHeader::SerializationOp`: magic, command, 4-byte little-endian
length, checksum, then the extended fields iff `IsExtended()`. -/
def serializeHeader (h : CMessageHeader) : List Nat :=
  h.pchMessageStart ++ (h.pchCommand ++ (toLE h.nPayloadLength 4 ++ (h.pchChecksum ++
    (match h.extendedFields with
     | some e => serializeExtended e
     | none => []))))

/-- Modelled from the spec: the sending-side header constructor
`CMessageHeader(const Config&, const CSerializedNetMsg&)` (body in
`protocol.cpp`, not among the analysed sources) — chooses extended framing
automatically (and only) when the payload length is at least the sentinel;
for extended framing the basic command is the `"extmsg"` marker, the basic
length field holds the sentinel and the real command and length move to the
extended fields. -/
def mkHeader (magic command : List Nat) (payloadLen : Nat) (checksum : List Nat) :
    CMessageHeader :=
  if LENGTH_SENTINEL ≤ payloadLen then
    { pchMessageStart := magic
      pchCommand := EXTMSG_COMMAND
      nPayloadLength := LENGTH_SENTINEL
      pchChecksum := checksum
      extendedFields := some { pchCommand := command, nPayloadLength := payloadLen }
      complete := true }
  else
    { pchMessageStart := magic
      pchCommand := command
      nPayloadLength := payloadLen
      pchChecksum := checksum
      extendedFields := none
      complete := true }

/-- Modelled from the spec: one-shot header decode (`CMessageHeader::Read`,
body in `protocol.cpp`, not among the analysed sources), §4.1 of the spec —
with fewer than `BASIC_HEADER_SIZE` bytes the result is `Incomplete`
(`none`); the 4-byte length equal to the sentinel requires the extended
fields (`Incomplete` while fewer than `EXTENDED_HEADER_SIZE` bytes are
available); returns the parsed header and the number of bytes consumed. -/
def parseHeaderBytes (buf : List Nat) : Option (CMessageHeader × Nat) :=
  if buf.length < BASIC_HEADER_SIZE then none
  else if fromLE ((buf.drop 16).take 4) = LENGTH_SENTINEL then
    if buf.length < EXTENDED_HEADER_SIZE then none
    else
      some ({ pchMessageStart := buf.take 4
              pchCommand := (buf.drop 4).take 12
              nPayloadLength := fromLE ((buf.drop 16).take 4)
              pchChecksum := (buf.drop 20).take 4
              extendedFields := some
                { pchCommand := (buf.drop 24).take 12
                  nPayloadLength := fromLE ((buf.drop 36).take 8) }
              complete := true }, EXTENDED_HEADER_SIZE)
  else
    some ({ pchMessageStart := buf.take 4
            pchCommand := (buf.drop 4).take 12
            nPayloadLength := fromLE ((buf.drop 16).take 4)
            pchChecksum := (buf.drop 20).take 4
            extendedFields := none
            complete := true }, BASIC_HEADER_SIZE)

/-- Modelled from the spec: the payload digest.  The checksum is the first
4 bytes of a double cryptographic hash of the payload (`CHash256`,
`hash.h`, not among the analysed sources); the hash primitive is abstracted
by a fixed executable digest so that digest equality follows from
absorbed-bytes equality. -/
def digest (bytes : List Nat) : List Nat :=
  toLE (bytes.foldl (fun a b => (a * 131 + b + 1) % 2 ^ 64) 0) 32

/-- First 4 bytes of the payload digest, used as the header checksum. -/
def checksumOf (payload : List Nat) : List Nat :=
  (digest payload).take 4

/-- Encoding of a full message: the serialized header (framing chosen from
the payload length, checksum regenerated from the payload) followed by the
payload bytes. -/
def encodeMsg (magic command payload : List Nat) : List Nat :=
  serializeHeader (mkHeader magic command payload.length (checksumOf payload)) ++ payload

/-- Full-message decode: parse the header, then take the declared number
of payload bytes. -/
def decodeMsg (bytes : List Nat) : Option (CMessageHeader × List Nat) :=
  match parseHeaderBytes bytes with
  | none => none
  | some (h, consumed) =>
      let rest := bytes.drop consumed
      if h.GetPayloadLength ≤ rest.length then some (h, rest.take h.GetPayloadLength)
      else none

/-! ## Inventory descriptor (`CInv`, `src/protocol.h`) -/

/-- `MSG_TYPE_MASK = 0xffffffff >> 3` (`src/protocol.h`): masks off the
top 3 experimental bits of an inventory type. -/
def MSG_TYPE_MASK : Nat := 0xffffffff >>> 3

/-- `GetDataMsg` enum values (`src/protocol.h`). -/
def UNDEFINED : Nat := 0

def MSG_TX : Nat := 1

def MSG_BLOCK : Nat := 2

def MSG_FILTERED_BLOCK : Nat := 3

def MSG_CMPCT_BLOCK : Nat := 4

/-- Inventory item (`CInv`): a 32-bit type and a 256-bit hash.
The `uint256` hash (`uint256.h`, not among the analysed sources) is
modelled as its numeric value; the spec's lexicographic comparison of the
equal-length byte strings coincides with numeric comparison. -/
structure CInv where
  type : Nat
  hash : Nat
deriving DecidableEq

/-- The source `operator<` on `CInv`:
`a.type < b.type || (a.type == b.type && a.hash < b.hash)`. -/
def CInv.lt (a b : CInv) : Prop :=
  a.type < b.type ∨ (a.type = b.type ∧ a.hash < b.hash)

instance (a b : CInv) : Decidable (a.lt b) := by
  unfold CInv.lt; infer_instance

/-- Non-strict companion of `CInv.lt`, used to state sortedness. -/
def CInv.le (a b : CInv) : Prop := ¬ CInv.lt b a

instance (a b : CInv) : Decidable (a.le b) := by
  unfold CInv.le; infer_instance

/-- The source `operator==` on `CInv`:
`a.type == b.type && a.hash == b.hash`. -/
def invEq (a b : CInv) : Bool :=
  a.type == b.type && a.hash == b.hash

/-- `CInv::GetKind()`: the type with the experimental high bits masked
off (`type & MSG_TYPE_MASK`). -/
def CInv.GetKind (a : CInv) : Nat := a.type &&& MSG_TYPE_MASK

/-- `CInv::IsTx()`: masked kind equals `MSG_TX`. -/
def CInv.IsTx (a : CInv) : Bool := a.GetKind == MSG_TX

/-- `CInv::IsSomeBlock()`: masked kind equals `MSG_BLOCK`,
`MSG_FILTERED_BLOCK` or `MSG_CMPCT_BLOCK`. -/
def CInv.IsSomeBlock (a : CInv) : Bool :=
  a.GetKind == MSG_BLOCK || a.GetKind == MSG_FILTERED_BLOCK ||
    a.GetKind == MSG_CMPCT_BLOCK

/-- `CInv::estimateMaxInvElements(maxPayloadLength)`:
`(maxPayloadLength - 8) / (4 + 32)` on `unsigned int` operands — the
subtraction wraps modulo `2^32` when `maxPayloadLength < 8`. -/
def estimateMaxInvElements (maxPayloadLength : Nat) : Nat :=
  ((maxPayloadLength + 4294967296 - 8) % 4294967296) / 36

/-! ## Protoconf codec (`CProtoconf`, `src/protocol.h`)

The stream primitives (`ReadCompactSize`, `LIMITED_STRING`, integer
reads, `serialize.h`) are not among the analysed sources; they are
modelled from the spec's wire layout (§6: `field_count:varint`,
`max_recv_payload_length:u32` little-endian, `stream_policies` a
length-prefixed bounded string).  A read past the end of the data or a
string over its bound is a deserialization failure. -/

/-- Read `k` bytes, failing when fewer are available. -/
def readBytes (k : Nat) (s : List Nat) : Except String (List Nat × List Nat) :=
  if k ≤ s.length then .ok (s.take k, s.drop k) else .error "end of data"

/-- Read a 4-byte little-endian `uint32_t`. -/
def readU32 (s : List Nat) : Except String (Nat × List Nat) :=
  match readBytes 4 s with
  | .error e => .error e
  | .ok (bs, r) => .ok (fromLE bs, r)

/-- Modelled from the spec: Bitcoin-style compact-size (varint) decoding
(`ReadCompactSize`, `serialize.h`, not among the analysed sources): a
first byte below `253` is the value itself, `253`/`254`/`255` announce a
2-, 4-, or 8-byte little-endian value (canonical-encoding enforcement is
immaterial to the claims and omitted). -/
def readCompactSize (s : List Nat) : Except String (Nat × List Nat) :=
  match s with
  | [] => .error "end of data"
  | b :: rest =>
    if b < 253 then .ok (b, rest)
    else if b = 253 then
      match readBytes 2 rest with
      | .error e => .error e
      | .ok (bs, r) => .ok (fromLE bs, r)
    else if b = 254 then
      match readBytes 4 rest with
      | .error e => .error e
      | .ok (bs, r) => .ok (fromLE bs, r)
    else
      match readBytes 8 rest with
      | .error e => .error e
      | .ok (bs, r) => .ok (fromLE bs, r)

/-- Compact-size (varint) encoding, the writing direction of
`readCompactSize`. -/
def writeCompactSize (n : Nat) : List Nat :=
  if n < 253 then [n]
  else if n < 65536 then 253 :: toLE n 2
  else if n < 4294967296 then 254 :: toLE n 4
  else 255 :: toLE n 8

/-- Modelled from the spec: `LIMITED_STRING(str, limit)` deserialization
(`serialize.h`, not among the analysed sources) — a length-prefixed
string whose declared length above the limit is a deserialization
failure, not a truncation. -/
def readLimitedString (limit : Nat) (s : List Nat) :
    Except String (List Nat × List Nat) :=
  match readCompactSize s with
  | .error e => .error e
  | .ok (n, r) =>
    if limit < n then .error "String length limit exceeded"
    else readBytes n r

/-- `CProtoconf::MAX_NUM_STREAM_POLICIES` (`src/protocol.h`). -/
def MAX_NUM_STREAM_POLICIES : Nat := 10

/-- Modelled from the spec: `MAX_STREAM_POLICY_NAME_LENGTH` is declared
in `net/net_types.h` (not among the analysed sources); its concrete value
does not affect the claims, only the existence of the bound. -/
def MAX_STREAM_POLICY_NAME_LENGTH : Nat := 64

/-- The bound applied to the `streamPolicies` string
(`(MAX_STREAM_POLICY_NAME_LENGTH + 1) * MAX_NUM_STREAM_POLICIES`,
`src/protocol.h`). -/
def streamPoliciesLimit : Nat :=
  (MAX_STREAM_POLICY_NAME_LENGTH + 1) * MAX_NUM_STREAM_POLICIES

/-- Protoconf message data (`CProtoconf`, `src/protocol.h`), with the
source's default member values `numberOfFields = 2`,
`maxRecvPayloadLength = 0`, empty `streamPolicies`. -/
structure CProtoconf where
  numberOfFields : Nat := 2
  maxRecvPayloadLength : Nat := 0
  streamPolicies : List Nat := []
deriving DecidableEq

/-- Deserialization of `CProtoconf`, from the source
`CProtoconf::SerializationOp` (`src/protocol.h:537-548`): read the
compact-size field count; zero fields is an immediate failure; one or
more fields reads the 4-byte `maxRecvPayloadLength`; two or more
additionally read the bounded `streamPolicies` string; nothing further is
consumed for larger field counts. -/
def protoconfUnser (s : List Nat) : Except String (CProtoconf × List Nat) :=
  match readCompactSize s with
  | .error e => .error e
  | .ok (n, r1) =>
    if 0 < n then
      match readU32 r1 with
      | .error e => .error e
      | .ok (m, r2) =>
        if 1 < n then
          match readLimitedString streamPoliciesLimit r2 with
          | .error e => .error e
          | .ok (sp, r3) =>
              .ok ({ numberOfFields := n, maxRecvPayloadLength := m,
                     streamPolicies := sp }, r3)
        else
          .ok ({ numberOfFields := n, maxRecvPayloadLength := m,
                 streamPolicies := [] }, r2)
    else
      .error "Invalid deserialization. Number of fields specified in protoconf is equal to 0."

/-! ## Incoming message assembler (`CNetMessage`, `src/net/net_message.h`)

`CNetMessage::Read` and `CMessageHeader::Read` bodies live in the `.cpp`
files (not among the analysed sources).  The streaming behaviour is
modelled from spec §4.2: the assembler accumulates header bytes until the
codec parses a header, immediately evaluates `IsValid`/`IsOversized`
(raising the ban-peer outcome and consuming nothing further on failure),
then appends payload bytes to the buffer and the running hasher until the
declared length is reached. -/

/-- The configuration surface the framing layer consumes (spec §6):
network magic and the registry's computed per-command maximum message
length under current configuration. -/
structure Config where
  magic : List Nat
  maxMessageLength : List Nat → Nat

/-- Modelled from the spec: command validity — a NUL-terminated printable
token (once a NUL appears, only NULs may follow; other bytes must be
printable ASCII). The checking helper
`CMessageHeader::CheckHeaderMagicAndCommand` lives in `protocol.cpp`,
not among the analysed sources. -/
def commandOk : List Nat → Bool
  | [] => true
  | b :: rest =>
    if b = 0 then rest.all (fun x => x == 0)
    else if 32 ≤ b ∧ b ≤ 126 then commandOk rest
    else false

/-- Modelled from the spec: the extended command is authoritative for an
extended header (`CMessageHeader::GetCommand`, body in `protocol.cpp`). -/
def CMessageHeader.GetCommand (h : CMessageHeader) : List Nat :=
  match h.extendedFields with
  | some e => e.pchCommand
  | none => h.pchCommand

/-- Modelled from the spec: `CMessageHeader::IsValid` (body in
`protocol.cpp`) — magic matches the configured network magic and the
command (and extended command, when present) is a NUL-terminated
printable token. -/
def CMessageHeader.IsValid (config : Config) (h : CMessageHeader) : Bool :=
  (h.pchMessageStart == config.magic) && commandOk h.pchCommand &&
    (match h.extendedFields with
     | some e => commandOk e.pchCommand
     | none => true)

/-- Modelled from the spec: `CMessageHeader::IsOversized` (body in
`protocol.cpp`) — the declared payload length exceeds the registry's
computed maximum for this command, judged from header metadata alone. -/
def CMessageHeader.IsOversized (config : Config) (h : CMessageHeader) : Bool :=
  decide (config.maxMessageLength h.GetCommand < h.GetPayloadLength)

/-- The ban-peer outcome raised to the connection collaborator
(`BanPeer`, `src/net/net_message.h`), as a distinguished result value. -/
inductive BanReason where
  | invalidHeader
  | oversized
deriving DecidableEq

/-- Assembler state (`CNetMessage`): accumulated header bytes, the header
(with its completion flag), the payload buffer, the bytes absorbed by the
incremental payload hasher, and the raised ban outcome if any. -/
structure CNetMessage where
  hdrBuf : List Nat
  hdr : CMessageHeader
  dataBuff : List Nat
  hasherBytes : List Nat
  banned : Option BanReason
deriving DecidableEq

/-- The default-constructed header a fresh `CNetMessage` holds
(member initializers in `src/protocol.h`): zeroed command and checksum,
length field at the `uint32_t` maximum, no extended fields, not
complete. -/
def initHeader (magic : List Nat) : CMessageHeader :=
  { pchMessageStart := magic
    pchCommand := List.replicate 12 0
    nPayloadLength := 4294967295
    pchChecksum := List.replicate 4 0
    extendedFields := none
    complete := false }

/-- A fresh assembler for a new incoming message. -/
def initNetMessage (magic : List Nat) : CNetMessage :=
  { hdrBuf := []
    hdr := initHeader magic
    dataBuff := []
    hasherBytes := []
    banned := none }

/-- `CNetMessage::Complete()` from the source (`src/net/net_message.h:34-40`):
false while the header is incomplete, else whether the declared payload
length equals the buffered payload size. -/
def CNetMessage.Complete (m : CNetMessage) : Bool :=
  if ¬ m.hdr.complete then false
  else m.hdr.GetPayloadLength == m.dataBuff.length

/-- Modelled from the spec: `GetMessageHash()` finalizes the running hash
over exactly the payload bytes that arrived. -/
def CNetMessage.GetMessageHash (m : CNetMessage) : List Nat :=
  digest m.hasherBytes

/-- Modelled from the spec: `GetTotalLength()` returns header size plus
payload size. -/
def CNetMessage.GetTotalLength (m : CNetMessage) : Nat :=
  (if m.hdr.IsExtended then EXTENDED_HEADER_SIZE else BASIC_HEADER_SIZE) +
    m.dataBuff.length

/-- Whether the assembler stops consuming: a ban has been raised or the
message is complete (further bytes belong to the next message). -/
def stopFeed (s : CNetMessage) : Bool :=
  s.banned.isSome || s.Complete

/-- Modelled from the spec (§4.2): consuming one byte.  While the header
is incomplete the byte extends the header buffer; the byte that completes
a header triggers the `IsValid`/`IsOversized` evaluation; afterwards
bytes are appended to the payload buffer and the running hasher. -/
def feedByte (config : Config) (s : CNetMessage) (b : Nat) : CNetMessage :=
  if s.hdr.complete then
    { s with dataBuff := s.dataBuff ++ [b], hasherBytes := s.hasherBytes ++ [b] }
  else
    match parseHeaderBytes (s.hdrBuf ++ [b]) with
    | none => { s with hdrBuf := s.hdrBuf ++ [b] }
    | some (h, _) =>
        if ¬ h.IsValid config then
          { s with hdrBuf := s.hdrBuf ++ [b], hdr := h,
                   banned := some .invalidHeader }
        else if h.IsOversized config then
          { s with hdrBuf := s.hdrBuf ++ [b], hdr := h,
                   banned := some .oversized }
        else
          { s with hdrBuf := s.hdrBuf ++ [b], hdr := h }

/-- Modelled from the spec (§4.2): `feed(bytes) -> bytes_consumed`
(`CNetMessage::Read`) — greedily consume offered bytes until the message
completes or a ban is raised, returning the new state and the number of
bytes consumed. -/
def feed (config : Config) : CNetMessage → List Nat → CNetMessage × Nat
  | s, [] => (s, 0)
  | s, b :: rest =>
    if stopFeed s then (s, 0)
    else
      let r := feed config (feedByte config s b) rest
      (r.1, r.2 + 1)

/-- Feeding a list of chunks in order. -/
def feedChunks (config : Config) : CNetMessage → List (List Nat) → CNetMessage
  | s, [] => s
  | s, c :: cs => feedChunks config (feed config s c).1 cs

/-- A concrete configuration used by the C3 witness: a 10-byte ceiling
for every command. -/
def tinyConfig : Config :=
  { magic := [1, 2, 3, 4], maxMessageLength := fun _ => 10 }

theorem toLE_length (n k : Nat) : (toLE n k).length = k := by
  induction k generalizing n with
  | zero => rfl
  | succ k ih => simp [toLE, ih]

theorem fromLE_toLE (n k : Nat) : fromLE (toLE n k) = n % 256 ^ k := by
  induction k generalizing n with
  | zero => simp [toLE, fromLE, Nat.mod_one]
  | succ k ih =>
      simp only [toLE, fromLE, ih]
      rw [Nat.pow_succ, Nat.mul_comm (256 ^ k) 256, ← Nat.mod_mul_right_div_self,
        ← Nat.mod_mod_of_dvd n (Dvd.intro (256 ^ k) rfl)]
      exact Nat.mod_add_div _ 256

theorem fromLE_toLE_of_lt {n : Nat} (k : Nat) (h : n < 256 ^ k) :
    fromLE (toLE n k) = n := by
  rw [fromLE_toLE, Nat.mod_eq_of_lt h]

theorem checksumOf_length (payload : List Nat) : (checksumOf payload).length = 4 := by
  simp [checksumOf, digest, toLE_length]

/-! ### Round-trip of the header codec -/

theorem LENGTH_SENTINEL_eq : LENGTH_SENTINEL = 4294967295 := rfl

/-- Parsing the serialization of a basic (non-extended) header recovers
the header and consumes exactly `BASIC_HEADER_SIZE` bytes. -/
theorem parse_serialize_basic (magic command cs : List Nat) (n : Nat)
    (hm : magic.length = 4) (hc : command.length = 12) (hcs : cs.length = 4)
    (hn : n < LENGTH_SENTINEL) :
    parseHeaderBytes (serializeHeader (mkHeader magic command n cs)) =
      some (mkHeader magic command n cs, BASIC_HEADER_SIZE) := by
  have hns : ¬ LENGTH_SENTINEL ≤ n := Nat.not_le.mpr hn
  rw [mkHeader, if_neg hns]
  show parseHeaderBytes (magic ++ (command ++ (toLE n 4 ++ (cs ++ [])))) = _
  rw [List.append_nil]
  set bytes := magic ++ (command ++ (toLE n 4 ++ cs)) with hbytes
  have hlen : bytes.length = 24 := by
    simp [hbytes, hm, hc, hcs, toLE_length]
  have hd4 : bytes.drop 4 = command ++ (toLE n 4 ++ cs) := List.drop_left' hm
  have hd16 : bytes.drop 16 = toLE n 4 ++ cs := by
    have h1 : (bytes.drop 4).drop 12 = bytes.drop (12 + 4) := List.drop_drop 12 4 bytes
    rw [hd4, List.drop_left' hc] at h1
    exact h1.symm
  have hd20 : bytes.drop 20 = cs := by
    have h1 : (bytes.drop 16).drop 4 = bytes.drop (4 + 16) := List.drop_drop 4 16 bytes
    rw [hd16, List.drop_left' (toLE_length n 4)] at h1
    exact h1.symm
  have ht4 : bytes.take 4 = magic := List.take_left' hm
  have htc : (bytes.drop 4).take 12 = command := by rw [hd4]; exact List.take_left' hc
  have htn : (bytes.drop 16).take 4 = toLE n 4 := by
    rw [hd16]; exact List.take_left' (toLE_length n 4)
  have htcs : (bytes.drop 20).take 4 = cs := by
    rw [hd20, ← hcs]; exact List.take_length cs
  have hval : fromLE ((bytes.drop 16).take 4) = n := by
    rw [htn]
    exact fromLE_toLE_of_lt 4 (by rw [LENGTH_SENTINEL_eq] at hn; omega)
  rw [parseHeaderBytes, if_neg (by rw [hlen]; simp [BASIC_HEADER_SIZE]; rfl)]
  simp only [hval, ht4, htc, htcs]
  rw [if_neg (by omega)]

/-- Parsing the serialization of an extended header recovers the header
and consumes exactly `EXTENDED_HEADER_SIZE` bytes. -/
theorem parse_serialize_extended (magic command cs : List Nat) (n : Nat)
    (hm : magic.length = 4) (hc : command.length = 12) (hcs : cs.length = 4)
    (hn : LENGTH_SENTINEL ≤ n) (hn64 : n < 2 ^ 64) :
    parseHeaderBytes (serializeHeader (mkHeader magic command n cs)) =
      some (mkHeader magic command n cs, EXTENDED_HEADER_SIZE) := by
  rw [mkHeader, if_pos hn]
  show parseHeaderBytes
      (magic ++ (EXTMSG_COMMAND ++ (toLE LENGTH_SENTINEL 4 ++
        (cs ++ (command ++ toLE n 8))))) = _
  set bytes := magic ++ (EXTMSG_COMMAND ++ (toLE LENGTH_SENTINEL 4 ++
    (cs ++ (command ++ toLE n 8)))) with hbytes
  have hce : EXTMSG_COMMAND.length = 12 := rfl
  have hlen : bytes.length = 44 := by
    simp [hbytes, hm, hce, hc, hcs, toLE_length]
  have hd4 : bytes.drop 4 = EXTMSG_COMMAND ++ (toLE LENGTH_SENTINEL 4 ++
      (cs ++ (command ++ toLE n 8))) := List.drop_left' hm
  have hd16 : bytes.drop 16 = toLE LENGTH_SENTINEL 4 ++ (cs ++ (command ++ toLE n 8)) := by
    have h1 : (bytes.drop 4).drop 12 = bytes.drop (12 + 4) := List.drop_drop 12 4 bytes
    rw [hd4, List.drop_left' hce] at h1
    exact h1.symm
  have hd20 : bytes.drop 20 = cs ++ (command ++ toLE n 8) := by
    have h1 : (bytes.drop 16).drop 4 = bytes.drop (4 + 16) := List.drop_drop 4 16 bytes
    rw [hd16, List.drop_left' (toLE_length LENGTH_SENTINEL 4)] at h1
    exact h1.symm
  have hd24 : bytes.drop 24 = command ++ toLE n 8 := by
    have h1 : (bytes.drop 20).drop 4 = bytes.drop (4 + 20) := List.drop_drop 4 20 bytes
    rw [hd20, List.drop_left' hcs] at h1
    exact h1.symm
  have hd36 : bytes.drop 36 = toLE n 8 := by
    have h1 : (bytes.drop 24).drop 12 = bytes.drop (12 + 24) := List.drop_drop 12 24 bytes
    rw [hd24, List.drop_left' hc] at h1
    exact h1.symm
  have ht4 : bytes.take 4 = magic := List.take_left' hm
  have htc : (bytes.drop 4).take 12 = EXTMSG_COMMAND := by
    rw [hd4]; exact List.take_left' hce
  have htn : fromLE ((bytes.drop 16).take 4) = LENGTH_SENTINEL := by
    rw [hd16, List.take_left' (toLE_length LENGTH_SENTINEL 4)]
    exact fromLE_toLE_of_lt 4 (by rw [LENGTH_SENTINEL_eq]; omega)
  have htcs : (bytes.drop 20).take 4 = cs := by
    rw [hd20]; exact List.take_left' hcs
  have htec : (bytes.drop 24).take 12 = command := by
    rw [hd24]; exact List.take_left' hc
  have hten : fromLE ((bytes.drop 36).take 8) = n := by
    have h8 : List.take 8 (toLE n 8) = toLE n 8 :=
      List.take_of_length_le (by rw [toLE_length])
    rw [hd36, h8]
    exact fromLE_toLE_of_lt 8 (by exact_mod_cast hn64)
  rw [parseHeaderBytes, if_neg (by rw [hlen]; decide)]
  simp only [htn, ht4, htc, htcs, htec, hten, if_true]
  rw [if_neg (by rw [hlen]; decide)]

/-- Header parsing is a function of the byte prefix only: appending more
bytes after a successfully parsed header does not change the result. -/
theorem parseHeaderBytes_append (buf rest : List Nat) (h : CMessageHeader) (c : Nat)
    (hp : parseHeaderBytes buf = some (h, c)) :
    parseHeaderBytes (buf ++ rest) = some (h, c) := by
  have hB : (BASIC_HEADER_SIZE : Nat) = 24 := rfl
  have hE : (EXTENDED_HEADER_SIZE : Nat) = 44 := rfl
  unfold parseHeaderBytes at hp ⊢
  by_cases h24 : buf.length < BASIC_HEADER_SIZE
  · simp [h24] at hp
  · have hb24 : 24 ≤ buf.length := by omega
    have key : ∀ j k : Nat, j + k ≤ buf.length →
        ((buf ++ rest).drop j).take k = (buf.drop j).take k := by
      intro j k hjk
      rw [List.drop_append_of_le_length (by omega),
        List.take_append_of_le_length (by rw [List.length_drop]; omega)]
    have hlen2 : ¬ (buf ++ rest).length < BASIC_HEADER_SIZE := by
      rw [List.length_append]; omega
    rw [if_neg h24] at hp
    rw [if_neg hlen2, key 16 4 (by omega)]
    have e1 : (buf ++ rest).take 4 = buf.take 4 :=
      List.take_append_of_le_length (by omega)
    by_cases hs : fromLE ((buf.drop 16).take 4) = LENGTH_SENTINEL
    · rw [if_pos hs] at hp
      by_cases h44 : buf.length < EXTENDED_HEADER_SIZE
      · simp [h44] at hp
      · have hb44 : 44 ≤ buf.length := by omega
        rw [if_neg h44] at hp
        rw [if_pos hs, if_neg (by rw [List.length_append]; omega),
          e1, key 4 12 (by omega), key 20 4 (by omega), key 24 12 (by omega),
          key 36 8 (by omega)]
        exact hp
    · rw [if_neg hs] at hp
      rw [if_neg hs, e1, key 4 12 (by omega), key 20 4 (by omega)]
      exact hp

/-- Length of a serialized basic header. -/
theorem serializeHeader_length_basic (h : CMessageHeader)
    (hm : h.pchMessageStart.length = 4) (hc : h.pchCommand.length = 12)
    (hcs : h.pchChecksum.length = 4) (hx : h.extendedFields = none) :
    (serializeHeader h).length = BASIC_HEADER_SIZE := by
  simp [serializeHeader, hx, hm, hc, hcs, toLE_length]
  rfl

/-- Length of a serialized extended header. -/
theorem serializeHeader_length_extended (h : CMessageHeader) (e : CExtendedMessageHeader)
    (hm : h.pchMessageStart.length = 4) (hc : h.pchCommand.length = 12)
    (hcs : h.pchChecksum.length = 4) (hx : h.extendedFields = some e)
    (hec : e.pchCommand.length = 12) :
    (serializeHeader h).length = EXTENDED_HEADER_SIZE := by
  simp [serializeHeader, serializeExtended, hx, hm, hc, hcs, hec, toLE_length]
  rfl

/-- C1: for every valid `(command, payload)` pair with
`payload.length < 0xFFFFFFFF`, decoding the bytes produced by encoding the
command and payload yields a basic (non-extended) header carrying the same
command and declared length, together with the same payload bytes. -/
theorem claim_C1_basic_roundtrip (magic command payload : List Nat)
    (hm : magic.length = 4) (hc : command.length = 12)
    (hp : payload.length < 0xFFFFFFFF) :
    ∃ h : CMessageHeader,
      decodeMsg (encodeMsg magic command payload) = some (h, payload) ∧
      h.IsExtended = false ∧
      h.pchCommand = command ∧
      h.nPayloadLength = payload.length ∧
      h.GetPayloadLength = payload.length := by
  have hns : ¬ LENGTH_SENTINEL ≤ payload.length := by
    rw [LENGTH_SENTINEL_eq]; omega
  have hrec : mkHeader magic command payload.length (checksumOf payload) =
      { pchMessageStart := magic
        pchCommand := command
        nPayloadLength := payload.length
        pchChecksum := checksumOf payload
        extendedFields := none
        complete := true } := by
    rw [mkHeader, if_neg hns]
  refine ⟨mkHeader magic command payload.length (checksumOf payload), ?_, ?_, ?_, ?_, ?_⟩
  · have hp1 := parse_serialize_basic magic command (checksumOf payload) payload.length
      hm hc (checksumOf_length payload) hp
    have hp2 := parseHeaderBytes_append _ payload _ _ hp1
    rw [decodeMsg, encodeMsg, hp2]
    dsimp only
    have hsl : (serializeHeader (mkHeader magic command payload.length
        (checksumOf payload))).length = BASIC_HEADER_SIZE := by
      apply serializeHeader_length_basic <;> rw [hrec] <;>
        first | exact hm | exact hc | exact checksumOf_length payload
    rw [List.drop_left' hsl]
    have hg : (mkHeader magic command payload.length
        (checksumOf payload)).GetPayloadLength = payload.length := by
      rw [hrec]; rfl
    rw [hg, if_pos (Nat.le_refl _), List.take_of_length_le (Nat.le_refl _)]
  · rw [hrec]; rfl
  · rw [hrec]
  · rw [hrec]
  · rw [hrec]; rfl

/-- Witness for C1 at a concrete message. -/
theorem claim_C1_basic_roundtrip_witness :
    ∃ h : CMessageHeader,
      decodeMsg (encodeMsg [227, 225, 243, 232]
        [112, 105, 110, 103, 0, 0, 0, 0, 0, 0, 0, 0] [7, 8, 9]) =
        some (h, [7, 8, 9]) ∧
      h.IsExtended = false ∧
      h.pchCommand = [112, 105, 110, 103, 0, 0, 0, 0, 0, 0, 0, 0] ∧
      h.nPayloadLength = [7, 8, 9].length ∧
      h.GetPayloadLength = [7, 8, 9].length :=
  claim_C1_basic_roundtrip [227, 225, 243, 232]
    [112, 105, 110, 103, 0, 0, 0, 0, 0, 0, 0, 0] [7, 8, 9]
    (by decide) (by decide) (by decide)

/-- C2: the encoder selects extended framing exactly when the payload
length is at least the sentinel `0xFFFFFFFF`; for every such declared
length the decoder recovers it from the 8-byte extended length field (the
basic 4-byte field holds the sentinel, not the length), and for all
smaller payload lengths the encoder emits basic framing with no extended
fields. -/
theorem claim_C2_extended_framing (magic command cs : List Nat) (n : Nat)
    (hm : magic.length = 4) (hc : command.length = 12) (hcs : cs.length = 4)
    (hn64 : n < 2 ^ 64) :
    (isExtendedPayloadSize n = true ↔ 0xFFFFFFFF ≤ n) ∧
    ((mkHeader magic command n cs).IsExtended = true ↔ 0xFFFFFFFF ≤ n) ∧
    (0xFFFFFFFF ≤ n →
      ∃ (h : CMessageHeader) (e : CExtendedMessageHeader),
        parseHeaderBytes (serializeHeader (mkHeader magic command n cs)) =
          some (h, EXTENDED_HEADER_SIZE) ∧
        h.extendedFields = some e ∧
        e.nPayloadLength = n ∧
        h.nPayloadLength = 0xFFFFFFFF ∧
        h.GetPayloadLength = n) ∧
    (n < 0xFFFFFFFF → (mkHeader magic command n cs).extendedFields = none) := by
  have hsent : LENGTH_SENTINEL = 0xFFFFFFFF := rfl
  refine ⟨?_, ?_, ?_, ?_⟩
  · rw [isExtendedPayloadSize, hsent]
    exact decide_eq_true_iff
  · constructor
    · intro hx
      by_contra hlt
      rw [mkHeader, if_neg (by rw [hsent]; omega)] at hx
      simp [CMessageHeader.IsExtended] at hx
    · intro hge
      rw [mkHeader, if_pos (by rw [hsent]; omega)]
      rfl
  · intro hge
    have hrec : mkHeader magic command n cs =
        { pchMessageStart := magic
          pchCommand := EXTMSG_COMMAND
          nPayloadLength := LENGTH_SENTINEL
          pchChecksum := cs
          extendedFields := some { pchCommand := command, nPayloadLength := n }
          complete := true } := by
      rw [mkHeader, if_pos (by rw [hsent]; omega)]
    refine ⟨mkHeader magic command n cs, { pchCommand := command, nPayloadLength := n },
      ?_, ?_, rfl, ?_, ?_⟩
    · exact parse_serialize_extended magic command cs n hm hc hcs (by rw [hsent]; omega) hn64
    · rw [hrec]
    · rw [hrec, hsent]
    · rw [hrec]; rfl
  · intro hlt
    rw [mkHeader, if_neg (by rw [hsent]; omega)]

/-- Witness for C2 at the sentinel payload length. -/
theorem claim_C2_extended_framing_witness :
    (isExtendedPayloadSize 0xFFFFFFFF = true ↔ 0xFFFFFFFF ≤ 0xFFFFFFFF) ∧
    ((mkHeader [227, 225, 243, 232] [98, 108, 111, 99, 107, 0, 0, 0, 0, 0, 0, 0]
        0xFFFFFFFF [1, 2, 3, 4]).IsExtended = true ↔ 0xFFFFFFFF ≤ 0xFFFFFFFF) ∧
    (0xFFFFFFFF ≤ 0xFFFFFFFF →
      ∃ (h : CMessageHeader) (e : CExtendedMessageHeader),
        parseHeaderBytes (serializeHeader (mkHeader [227, 225, 243, 232]
            [98, 108, 111, 99, 107, 0, 0, 0, 0, 0, 0, 0] 0xFFFFFFFF [1, 2, 3, 4])) =
          some (h, EXTENDED_HEADER_SIZE) ∧
        h.extendedFields = some e ∧
        e.nPayloadLength = 0xFFFFFFFF ∧
        h.nPayloadLength = 0xFFFFFFFF ∧
        h.GetPayloadLength = 0xFFFFFFFF) ∧
    (0xFFFFFFFF < 0xFFFFFFFF →
      (mkHeader [227, 225, 243, 232] [98, 108, 111, 99, 107, 0, 0, 0, 0, 0, 0, 0]
        0xFFFFFFFF [1, 2, 3, 4]).extendedFields = none) :=
  claim_C2_extended_framing [227, 225, 243, 232]
    [98, 108, 111, 99, 107, 0, 0, 0, 0, 0, 0, 0] [1, 2, 3, 4] 0xFFFFFFFF
    (by decide) (by decide) (by decide) (by norm_num)

theorem CInv.lt_trichotomy (a b : CInv) : a.lt b ∨ a = b ∨ b.lt a := by
  rcases a with ⟨ta, ha⟩
  rcases b with ⟨tb, hb⟩
  simp only [CInv.lt, CInv.mk.injEq]
  omega

theorem CInv.lt_asymm' {a b : CInv} (h : a.lt b) : ¬ b.lt a := by
  rcases a with ⟨ta, ha⟩
  rcases b with ⟨tb, hb⟩
  simp only [CInv.lt] at h ⊢
  omega

theorem CInv.lt_trans' {a b c : CInv} (hab : a.lt b) (hbc : b.lt c) : a.lt c := by
  rcases a with ⟨ta, ha⟩
  rcases b with ⟨tb, hb⟩
  rcases c with ⟨tc, hc⟩
  simp only [CInv.lt] at hab hbc ⊢
  omega

theorem CInv.le_total' (a b : CInv) : a.le b ∨ b.le a := by
  rcases CInv.lt_trichotomy a b with h | h | h
  · exact Or.inl (CInv.lt_asymm' h)
  · subst h
    exact Or.inl (fun hlt => CInv.lt_asymm' hlt hlt)
  · exact Or.inr (CInv.lt_asymm' h)

theorem CInv.le_trans' {a b c : CInv} (hab : a.le b) (hbc : b.le c) : a.le c := by
  intro hca
  rcases CInv.lt_trichotomy a b with h | h | h
  · exact hbc (CInv.lt_trans' hca h)
  · subst h
    exact hbc hca
  · exact hab h

theorem CInv.le_antisymm' {a b : CInv} (hab : a.le b) (hba : b.le a) : a = b := by
  rcases CInv.lt_trichotomy a b with h | h | h
  · exact absurd h hba
  · exact h
  · exact absurd h hab

/-- C8: the ordering on inventory items is a strict total order with
primary key the item's (raw) kind field and secondary key the hash:
irreflexive, transitive, trichotomous; equality under the source
`operator==` holds exactly when both fields are equal; and for any three
items `A < B < C`, insertion-sorting any permutation of them yields
`[A, B, C]`. -/
theorem claim_C8_inv_strict_total_order :
    (∀ a : CInv, ¬ a.lt a) ∧
    (∀ a b c : CInv, a.lt b → b.lt c → a.lt c) ∧
    (∀ a b : CInv, a ≠ b → a.lt b ∨ b.lt a) ∧
    (∀ a b : CInv, a.lt b → ¬ b.lt a) ∧
    (∀ a b : CInv, invEq a b = true ↔ a = b) ∧
    (∀ A B C : CInv, A.lt B → B.lt C →
      ∀ l : List CInv, l.Perm [A, B, C] →
        l.insertionSort CInv.le = [A, B, C]) := by
  refine ⟨?_, ?_, ?_, ?_, ?_, ?_⟩
  · intro a h
    exact CInv.lt_asymm' h h
  · exact fun a b c => CInv.lt_trans'
  · intro a b hne
    rcases CInv.lt_trichotomy a b with h | h | h
    · exact Or.inl h
    · exact absurd h hne
    · exact Or.inr h
  · exact fun a b => CInv.lt_asymm'
  · intro a b
    rcases a with ⟨ta, ha⟩
    rcases b with ⟨tb, hb⟩
    simp [invEq]
  · intro A B C hAB hBC l hperm
    haveI : IsTotal CInv CInv.le := ⟨CInv.le_total'⟩
    haveI : IsTrans CInv CInv.le := ⟨fun _ _ _ => CInv.le_trans'⟩
    haveI : IsAntisymm CInv CInv.le := ⟨fun _ _ => CInv.le_antisymm'⟩
    refine List.eq_of_perm_of_sorted
      ((List.perm_insertionSort CInv.le l).trans hperm)
      (List.sorted_insertionSort CInv.le l) ?_
    have h1 : CInv.le A B := CInv.lt_asymm' hAB
    have h2 : CInv.le B C := CInv.lt_asymm' hBC
    have h3 : CInv.le A C := CInv.le_trans' h1 h2
    simp [List.sorted_cons, h1, h2, h3]

/-- Witness for C8: sorting a concrete permutation of three ordered items. -/
theorem claim_C8_inv_strict_total_order_witness :
    ([⟨2, 5⟩, ⟨1, 7⟩, ⟨2, 3⟩] : List CInv).insertionSort CInv.le =
      [⟨1, 7⟩, ⟨2, 3⟩, ⟨2, 5⟩] :=
  claim_C8_inv_strict_total_order.2.2.2.2.2 ⟨1, 7⟩ ⟨2, 3⟩ ⟨2, 5⟩
    (by decide) (by decide) _ (by decide)

/-- C9: `IsTx` returns true exactly when the masked kind
(`type & MSG_TYPE_MASK`) equals `MSG_TX`; `IsSomeBlock` exactly when the
masked kind equals `MSG_BLOCK`, `MSG_FILTERED_BLOCK` or `MSG_CMPCT_BLOCK`;
a masked kind outside the known enum range (greater than
`MSG_CMPCT_BLOCK = 4`) makes both predicates false. -/
theorem claim_C9_inv_classification (a : CInv) :
    (a.IsTx = true ↔ a.GetKind = MSG_TX) ∧
    (a.IsSomeBlock = true ↔
      (a.GetKind = MSG_BLOCK ∨ a.GetKind = MSG_FILTERED_BLOCK ∨
        a.GetKind = MSG_CMPCT_BLOCK)) ∧
    (MSG_CMPCT_BLOCK < a.GetKind → a.IsTx = false ∧ a.IsSomeBlock = false) := by
  refine ⟨?_, ?_, ?_⟩
  · simp [CInv.IsTx]
  · simp [CInv.IsSomeBlock, or_assoc]
  · intro hgt
    constructor
    · simp [CInv.IsTx, MSG_TX]
      simp [MSG_CMPCT_BLOCK] at hgt
      omega
    · simp [CInv.IsSomeBlock, MSG_BLOCK, MSG_FILTERED_BLOCK, MSG_CMPCT_BLOCK]
      simp [MSG_CMPCT_BLOCK] at hgt
      omega

/-- Witness for C9 at an item whose masked kind is outside the enum range. -/
theorem claim_C9_inv_classification_witness :
    CInv.IsTx ⟨9, 0⟩ = false ∧ CInv.IsSomeBlock ⟨9, 0⟩ = false :=
  (claim_C9_inv_classification ⟨9, 0⟩).2.2 (by decide)

/-- C10: equality and ordering on `CInv` use the raw 32-bit type field,
not the masked kind: items with equal hashes whose types differ only in
the masked-off experimental high bits compare unequal under `operator==`,
and exactly one of `a < b`, `b < a` holds, decided by the raw type
values. -/
theorem claim_C10_inv_raw_type_ordering (a b : CInv)
    (hh : a.hash = b.hash) (ht : a.type ≠ b.type) (hk : a.GetKind = b.GetKind) :
    invEq a b = false ∧
    ((a.lt b ∧ ¬ b.lt a) ∨ (b.lt a ∧ ¬ a.lt b)) ∧
    (a.lt b ↔ a.type < b.type) := by
  refine ⟨?_, ?_, ?_⟩
  · simp [invEq, ht]
  · rcases Nat.lt_or_ge a.type b.type with h | h
    · exact Or.inl ⟨Or.inl h, CInv.lt_asymm' (Or.inl h)⟩
    · have h' : b.type < a.type := Nat.lt_of_le_of_ne h (fun he => ht he.symm)
      exact Or.inr ⟨Or.inl h', CInv.lt_asymm' (Or.inl h')⟩
  · constructor
    · rintro (h | ⟨he, _⟩)
      · exact h
      · exact absurd he ht
    · exact Or.inl

/-- Witness for C10: types `1` and `0x20000001` differ only in a
masked-off bit. -/
theorem claim_C10_inv_raw_type_ordering_witness :
    invEq ⟨1, 5⟩ ⟨0x20000001, 5⟩ = false ∧
    ((CInv.lt ⟨1, 5⟩ ⟨0x20000001, 5⟩ ∧ ¬ CInv.lt ⟨0x20000001, 5⟩ ⟨1, 5⟩) ∨
      (CInv.lt ⟨0x20000001, 5⟩ ⟨1, 5⟩ ∧ ¬ CInv.lt ⟨1, 5⟩ ⟨0x20000001, 5⟩)) ∧
    (CInv.lt ⟨1, 5⟩ ⟨0x20000001, 5⟩ ↔ (1 : Nat) < 0x20000001) :=
  claim_C10_inv_raw_type_ordering ⟨1, 5⟩ ⟨0x20000001, 5⟩ rfl
    (by decide) (by decide)

/-- C7 fails as stated: for a payload budget below the 8-byte count
prefix the `unsigned int` subtraction in `estimateMaxInvElements` wraps
around, and the estimated element count is far too large for the budget.
Concretely, at budget `0` the encoded size `8 + 36 * estimate` exceeds
the budget. -/
theorem claim_C7_counterexample :
    ¬ (8 + 36 * estimateMaxInvElements 0 ≤ 0) := by
  decide

/-- C7 (amended): for every payload budget `b` with `8 ≤ b < 2^32`
(budgets at least the 8-byte count prefix, within the `unsigned int`
range), `estimateMaxInvElements b` returns a count whose encoded
inventory message — 8 bytes of count prefix plus 36 bytes per item —
does not exceed `b`. -/
theorem claim_C7_estimate_fits (b : Nat) (h8 : 8 ≤ b) (h32 : b < 4294967296) :
    8 + 36 * estimateMaxInvElements b ≤ b := by
  unfold estimateMaxInvElements
  omega

/-- Witness for the amended C7 at a concrete budget. -/
theorem claim_C7_estimate_fits_witness :
    8 + 36 * estimateMaxInvElements 100 ≤ 100 :=
  claim_C7_estimate_fits 100 (by decide) (by decide)

theorem readBytes_exact (bs rest : List Nat) (k : Nat) (hk : bs.length = k) :
    readBytes k (bs ++ rest) = .ok (bs, rest) := by
  rw [readBytes, if_pos (by rw [List.length_append]; omega),
    List.take_left' hk, List.drop_left' hk]

theorem readU32_toLE (m : Nat) (rest : List Nat) (hm : m < 4294967296) :
    readU32 (toLE m 4 ++ rest) = .ok (m, rest) := by
  have hb := readBytes_exact (toLE m 4) rest 4 (toLE_length m 4)
  have hf : fromLE (toLE m 4) = m := fromLE_toLE_of_lt 4 (by norm_num; omega)
  simp [readU32, hb, hf]

theorem readCompactSize_writeCompactSize (n : Nat) (rest : List Nat)
    (hn : n < 2 ^ 64) :
    readCompactSize (writeCompactSize n ++ rest) = .ok (n, rest) := by
  rw [writeCompactSize]
  by_cases h1 : n < 253
  · rw [if_pos h1]
    simp [readCompactSize, h1]
  · rw [if_neg h1]
    by_cases h2 : n < 65536
    · rw [if_pos h2]
      have hb := readBytes_exact (toLE n 2) rest 2 (toLE_length n 2)
      have hf : fromLE (toLE n 2) = n := fromLE_toLE_of_lt 2 (by norm_num; omega)
      simp [readCompactSize, hb, hf]
    · rw [if_neg h2]
      by_cases h3 : n < 4294967296
      · rw [if_pos h3]
        have hb := readBytes_exact (toLE n 4) rest 4 (toLE_length n 4)
        have hf : fromLE (toLE n 4) = n := fromLE_toLE_of_lt 4 (by norm_num; omega)
        simp [readCompactSize, hb, hf]
      · rw [if_neg h3]
        have hb := readBytes_exact (toLE n 8) rest 8 (toLE_length n 8)
        have hf : fromLE (toLE n 8) = n := fromLE_toLE_of_lt 8 (by norm_num; omega)
        simp [readCompactSize, hb, hf]

theorem readLimitedString_encode (sp rest : List Nat) (limit : Nat)
    (hsp : sp.length ≤ limit) (h64 : sp.length < 2 ^ 64) :
    readLimitedString limit (writeCompactSize sp.length ++ (sp ++ rest)) =
      .ok (sp, rest) := by
  have hb := readBytes_exact sp rest sp.length rfl
  simp [readLimitedString, readCompactSize_writeCompactSize _ _ h64,
    Nat.not_lt.mpr hsp, hb]

/-- C6: Protoconf deserialization with `field_count = 0` fails; with
`field_count = 1` it reads only the 4-byte `maxRecvPayloadLength` and
leaves the stream-policies string empty; with `field_count = 2` it reads
both fields; and for every larger `field_count` it still succeeds,
consuming exactly the two known fields and leaving the remaining bytes
untouched. -/
theorem claim_C6_protoconf_field_count (m : Nat) (sp rest : List Nat)
    (hm : m < 4294967296) (hsp : sp.length ≤ streamPoliciesLimit) :
    (∃ e, protoconfUnser (writeCompactSize 0 ++ rest) = .error e) ∧
    (protoconfUnser (writeCompactSize 1 ++ (toLE m 4 ++ rest)) =
      .ok ({ numberOfFields := 1, maxRecvPayloadLength := m,
             streamPolicies := [] }, rest)) ∧
    (protoconfUnser (writeCompactSize 2 ++
        (toLE m 4 ++ (writeCompactSize sp.length ++ (sp ++ rest)))) =
      .ok ({ numberOfFields := 2, maxRecvPayloadLength := m,
             streamPolicies := sp }, rest)) ∧
    (∀ f : Nat, 2 < f → f < 2 ^ 64 →
      protoconfUnser (writeCompactSize f ++
          (toLE m 4 ++ (writeCompactSize sp.length ++ (sp ++ rest)))) =
        .ok ({ numberOfFields := f, maxRecvPayloadLength := m,
               streamPolicies := sp }, rest)) := by
  have h64sp : sp.length < 2 ^ 64 :=
    Nat.lt_of_le_of_lt hsp (by norm_num [streamPoliciesLimit,
      MAX_STREAM_POLICY_NAME_LENGTH, MAX_NUM_STREAM_POLICIES])
  have hstr := readLimitedString_encode sp rest streamPoliciesLimit hsp h64sp
  refine ⟨?_, ?_, ?_, ?_⟩
  · refine ⟨"Invalid deserialization. Number of fields specified in protoconf is equal to 0.", ?_⟩
    simp [protoconfUnser, readCompactSize_writeCompactSize 0 rest (by norm_num)]
  · simp [protoconfUnser, readCompactSize_writeCompactSize 1 _ (by norm_num),
      readU32_toLE m rest hm]
  · simp [protoconfUnser, readCompactSize_writeCompactSize 2 _ (by norm_num),
      readU32_toLE m _ hm, hstr]
  · intro f h2f hf64
    have h0 : 0 < f := by omega
    have h1 : 1 < f := by omega
    simp [protoconfUnser, readCompactSize_writeCompactSize f _ hf64,
      readU32_toLE m _ hm, hstr, h0, h1]

/-- Witness for C6 at a concrete payload-length value and policy string. -/
theorem claim_C6_protoconf_field_count_witness :
    (∃ e, protoconfUnser (writeCompactSize 0 ++ []) = .error e) ∧
    (protoconfUnser (writeCompactSize 1 ++ (toLE 1000 4 ++ [])) =
      .ok ({ numberOfFields := 1, maxRecvPayloadLength := 1000,
             streamPolicies := [] }, [])) ∧
    (protoconfUnser (writeCompactSize 2 ++
        (toLE 1000 4 ++ (writeCompactSize [97].length ++ ([97] ++ [])))) =
      .ok ({ numberOfFields := 2, maxRecvPayloadLength := 1000,
             streamPolicies := [97] }, [])) ∧
    (∀ f : Nat, 2 < f → f < 2 ^ 64 →
      protoconfUnser (writeCompactSize f ++
          (toLE 1000 4 ++ (writeCompactSize [97].length ++ ([97] ++ [])))) =
        .ok ({ numberOfFields := f, maxRecvPayloadLength := 1000,
               streamPolicies := [97] }, [])) :=
  claim_C6_protoconf_field_count 1000 [97] [] (by decide) (by decide)

theorem feed_stop (config : Config) (s : CNetMessage) (bytes : List Nat)
    (h : stopFeed s = true) : feed config s bytes = (s, 0) := by
  cases bytes with
  | nil => rfl
  | cons b rest => rw [feed, if_pos h]

theorem feed_consume_lt (config : Config) (s : CNetMessage) (bytes : List Nat)
    (h : (feed config s bytes).2 < bytes.length) :
    stopFeed (feed config s bytes).1 = true := by
  induction bytes generalizing s with
  | nil => simp [feed] at h
  | cons b rest ih =>
      by_cases hs : stopFeed s = true
      · rw [feed_stop config s _ hs] at h ⊢
        exact hs
      · rw [feed, if_neg hs] at h ⊢
        simp only [List.length_cons] at h
        exact ih (feedByte config s b) (by omega)

/-- Feeding a concatenation equals feeding the pieces in order, both for
the final state and for the total number of bytes consumed. -/
theorem feed_append (config : Config) (s : CNetMessage) (b1 b2 : List Nat) :
    feed config s (b1 ++ b2) =
      ((feed config (feed config s b1).1 b2).1,
        (feed config s b1).2 + (feed config (feed config s b1).1 b2).2) := by
  induction b1 generalizing s with
  | nil => simp [feed]
  | cons b t ih =>
      by_cases hs : stopFeed s = true
      · rw [List.cons_append, feed_stop config s _ hs,
          feed_stop config s (b :: t) hs]
        simp [feed_stop config s b2 hs]
      · rw [List.cons_append, feed, if_neg hs, feed, if_neg hs]
        simp only [ih (feedByte config s b)]
        exact Prod.ext rfl (by omega)

/-- C5: for every assembler state, `CNetMessage::Complete()` returns true
if and only if the header parse is complete and the declared payload
length equals the number of payload bytes buffered so far. -/
theorem claim_C5_complete_iff (m : CNetMessage) :
    m.Complete = true ↔
      (m.hdr.complete = true ∧ m.hdr.GetPayloadLength = m.dataBuff.length) := by
  rw [CNetMessage.Complete]
  by_cases h : m.hdr.complete
  · simp [h]
  · simp [h]

/-- Feeding chunks in order reaches the same final state as feeding their
concatenation at once. -/
theorem feedChunks_eq_feed_join (config : Config) (s : CNetMessage)
    (chunks : List (List Nat)) :
    feedChunks config s chunks = (feed config s chunks.flatten).1 := by
  induction chunks generalizing s with
  | nil => simp [feedChunks, feed]
  | cons ch cs ih =>
      rw [feedChunks, List.flatten_cons, feed_append, ih]

/-- C4: for every encoded message and every decomposition of its bytes
into finitely many non-empty chunks, feeding the chunks to the assembler
in order yields the same final `Complete()` result, the same
`GetMessageHash()` value and the same `GetTotalLength()` value as feeding
all the bytes in a single call. -/
theorem claim_C4_chunking_invariance (config : Config)
    (magic command payload : List Nat) (chunks : List (List Nat))
    (hjoin : chunks.flatten = encodeMsg magic command payload)
    (hne : ∀ ch ∈ chunks, ch ≠ []) :
    (feedChunks config (initNetMessage config.magic) chunks).Complete =
      ((feed config (initNetMessage config.magic)
        (encodeMsg magic command payload)).1).Complete ∧
    (feedChunks config (initNetMessage config.magic) chunks).GetMessageHash =
      ((feed config (initNetMessage config.magic)
        (encodeMsg magic command payload)).1).GetMessageHash ∧
    (feedChunks config (initNetMessage config.magic) chunks).GetTotalLength =
      ((feed config (initNetMessage config.magic)
        (encodeMsg magic command payload)).1).GetTotalLength := by
  have hst := feedChunks_eq_feed_join config (initNetMessage config.magic) chunks
  rw [hjoin] at hst
  rw [hst]
  exact ⟨rfl, rfl, rfl⟩

/-- Witness for C4: a concrete 25-byte message fed in 1-byte chunks. -/
theorem claim_C4_chunking_invariance_witness :
    (feedChunks { magic := [1, 2, 3, 4], maxMessageLength := fun _ => 1000 }
        (initNetMessage [1, 2, 3, 4])
        (List.map (fun b => [b]) (encodeMsg [1, 2, 3, 4]
          [112, 105, 110, 103, 0, 0, 0, 0, 0, 0, 0, 0] [7]))).Complete =
      ((feed { magic := [1, 2, 3, 4], maxMessageLength := fun _ => 1000 }
        (initNetMessage [1, 2, 3, 4])
        (encodeMsg [1, 2, 3, 4]
          [112, 105, 110, 103, 0, 0, 0, 0, 0, 0, 0, 0] [7])).1).Complete ∧
    (feedChunks { magic := [1, 2, 3, 4], maxMessageLength := fun _ => 1000 }
        (initNetMessage [1, 2, 3, 4])
        (List.map (fun b => [b]) (encodeMsg [1, 2, 3, 4]
          [112, 105, 110, 103, 0, 0, 0, 0, 0, 0, 0, 0] [7]))).GetMessageHash =
      ((feed { magic := [1, 2, 3, 4], maxMessageLength := fun _ => 1000 }
        (initNetMessage [1, 2, 3, 4])
        (encodeMsg [1, 2, 3, 4]
          [112, 105, 110, 103, 0, 0, 0, 0, 0, 0, 0, 0] [7])).1).GetMessageHash ∧
    (feedChunks { magic := [1, 2, 3, 4], maxMessageLength := fun _ => 1000 }
        (initNetMessage [1, 2, 3, 4])
        (List.map (fun b => [b]) (encodeMsg [1, 2, 3, 4]
          [112, 105, 110, 103, 0, 0, 0, 0, 0, 0, 0, 0] [7]))).GetTotalLength =
      ((feed { magic := [1, 2, 3, 4], maxMessageLength := fun _ => 1000 }
        (initNetMessage [1, 2, 3, 4])
        (encodeMsg [1, 2, 3, 4]
          [112, 105, 110, 103, 0, 0, 0, 0, 0, 0, 0, 0] [7])).1).GetTotalLength :=
  claim_C4_chunking_invariance
    { magic := [1, 2, 3, 4], maxMessageLength := fun _ => 1000 }
    [1, 2, 3, 4] [112, 105, 110, 103, 0, 0, 0, 0, 0, 0, 0, 0] [7]
    (List.map (fun b => [b]) (encodeMsg [1, 2, 3, 4]
      [112, 105, 110, 103, 0, 0, 0, 0, 0, 0, 0, 0] [7]))
    (by decide) (by decide)

theorem parseHeaderBytes_none_short (buf : List Nat)
    (h : buf.length < BASIC_HEADER_SIZE) : parseHeaderBytes buf = none := by
  rw [parseHeaderBytes, if_pos h]

/-- A header that parses by consuming its whole byte string has no
strictly shorter parsing prefix: the codec reports `Incomplete` on every
proper prefix. -/
theorem parseHeaderBytes_take_none (H : List Nat) (h : CMessageHeader) (k : Nat)
    (hp : parseHeaderBytes H = some (h, H.length)) (hk : k < H.length) :
    parseHeaderBytes (H.take k) = none := by
  have hB : (BASIC_HEADER_SIZE : Nat) = 24 := rfl
  have hE : (EXTENDED_HEADER_SIZE : Nat) = 44 := rfl
  rw [parseHeaderBytes] at hp
  by_cases h24 : H.length < BASIC_HEADER_SIZE
  · simp [h24] at hp
  · rw [if_neg h24] at hp
    by_cases hs : fromLE ((H.drop 16).take 4) = LENGTH_SENTINEL
    · rw [if_pos hs] at hp
      by_cases h44 : H.length < EXTENDED_HEADER_SIZE
      · simp [h44] at hp
      · rw [if_neg h44] at hp
        have hHlen : H.length = 44 := by
          have := (Option.some.injEq _ _).mp hp
          have h2 := congrArg Prod.snd this
          simp at h2
          omega
        have htk : (H.take k).length = k := by
          rw [List.length_take]; omega
        by_cases hk24 : k < 24
        · exact parseHeaderBytes_none_short _ (by rw [htk]; omega)
        · have hslice : ((H.take k).drop 16).take 4 = (H.drop 16).take 4 := by
            rw [List.drop_take k 16 H, List.take_take]
            congr 1
            omega
          rw [parseHeaderBytes, if_neg (by rw [htk]; omega), hslice,
            if_pos hs, if_pos (by rw [htk]; omega)]
    · rw [if_neg hs] at hp
      have hHlen : H.length = 24 := by
        have := (Option.some.injEq _ _).mp hp
        have h2 := congrArg Prod.snd this
        simp at h2
        omega
      exact parseHeaderBytes_none_short _
        (by rw [List.length_take]; omega)

/-- While no prefix of the incoming bytes completes a header, the
assembler consumes everything offered and only extends its header
buffer. -/
theorem feed_no_parse (config : Config) (post : List Nat) (s : CNetMessage)
    (hb : s.banned = none) (hcm : s.hdr.complete = false)
    (hnp : ∀ k : Nat, 1 ≤ k → k ≤ post.length →
      parseHeaderBytes (s.hdrBuf ++ post.take k) = none) :
    feed config s post = ({ s with hdrBuf := s.hdrBuf ++ post }, post.length) := by
  induction post generalizing s with
  | nil => simp [feed]
  | cons b t ih =>
      have hstop : stopFeed s = false := by
        simp [stopFeed, CNetMessage.Complete, hb, hcm]
      have hp1 : parseHeaderBytes (s.hdrBuf ++ [b]) = none := by
        have := hnp 1 (Nat.le_refl 1) (by simp)
        simpa using this
      have hfb : feedByte config s b = { s with hdrBuf := s.hdrBuf ++ [b] } := by
        rw [feedByte, if_neg (by rw [hcm]; simp), hp1]
      rw [feed, if_neg (by rw [hstop]; simp), hfb]
      have ihres := ih { s with hdrBuf := s.hdrBuf ++ [b] } hb hcm (by
        intro k hk1 hk2
        have := hnp (k + 1) (by omega) (by simp; omega)
        simpa [List.append_assoc] using this)
      rw [ihres]
      simp [List.append_assoc]

/-- The byte that completes a valid-but-oversized header raises the
ban-peer outcome and stops consumption: no later byte is consumed. -/
theorem feed_oversized_last (config : Config) (s : CNetMessage) (b : Nat)
    (rest : List Nat) (h : CMessageHeader) (c : Nat)
    (hb : s.banned = none) (hcm : s.hdr.complete = false)
    (hp : parseHeaderBytes (s.hdrBuf ++ [b]) = some (h, c))
    (hvalid : h.IsValid config = true) (hover : h.IsOversized config = true) :
    feed config s (b :: rest) =
      ({ s with hdrBuf := s.hdrBuf ++ [b], hdr := h,
                banned := some .oversized }, 1) := by
  have hstop : stopFeed s = false := by
    simp [stopFeed, CNetMessage.Complete, hb, hcm]
  have hfb : feedByte config s b =
      { s with hdrBuf := s.hdrBuf ++ [b], hdr := h, banned := some .oversized } := by
    rw [feedByte, if_neg (by rw [hcm]; simp), hp]
    simp [hvalid, hover]
  rw [feed, if_neg (by rw [hstop]; simp), hfb,
    feed_stop config _ rest (by simp [stopFeed])]

/-- C3: a header declaring a payload length over the configured maximum
for its command is rejected as Oversized using only the header metadata:
the ban-peer outcome is raised, no payload byte is consumed beyond the
header (the returned consumed count is exactly the header size) and
nothing is appended to the payload buffer or the running hasher. -/
theorem claim_C3_oversized_ban (config : Config) (command cs payload : List Nat)
    (n : Nat) (hm : config.magic.length = 4) (hc : command.length = 12)
    (hcs : cs.length = 4) (hcmd : commandOk command = true) (hn64 : n < 2 ^ 64)
    (hover : config.maxMessageLength command < n) :
    feed config (initNetMessage config.magic)
        (serializeHeader (mkHeader config.magic command n cs) ++ payload) =
      ({ hdrBuf := serializeHeader (mkHeader config.magic command n cs)
         hdr := mkHeader config.magic command n cs
         dataBuff := []
         hasherBytes := []
         banned := some BanReason.oversized },
        (serializeHeader (mkHeader config.magic command n cs)).length) := by
  set h := mkHeader config.magic command n cs with hh
  set H := serializeHeader h with hH
  have hfacts : parseHeaderBytes H = some (h, H.length) ∧
      h.IsValid config = true ∧ h.IsOversized config = true := by
    by_cases hlt : n < LENGTH_SENTINEL
    · have hrec : h =
          { pchMessageStart := config.magic
            pchCommand := command
            nPayloadLength := n
            pchChecksum := cs
            extendedFields := none
            complete := true } := by
        rw [hh, mkHeader, if_neg (Nat.not_le.mpr hlt)]
      have hlen : H.length = BASIC_HEADER_SIZE := by
        rw [hH]
        exact serializeHeader_length_basic h (by rw [hrec]; exact hm)
          (by rw [hrec]; exact hc) (by rw [hrec]; exact hcs) (by rw [hrec])
      refine ⟨?_, ?_, ?_⟩
      · rw [hlen]
        exact parse_serialize_basic config.magic command cs n hm hc hcs hlt
      · simp [CMessageHeader.IsValid, hrec, hcmd]
      · simp [CMessageHeader.IsOversized, CMessageHeader.GetCommand,
          CMessageHeader.GetPayloadLength, hrec]
        exact hover
    · have hge : LENGTH_SENTINEL ≤ n := Nat.not_lt.mp hlt
      have hrec : h =
          { pchMessageStart := config.magic
            pchCommand := EXTMSG_COMMAND
            nPayloadLength := LENGTH_SENTINEL
            pchChecksum := cs
            extendedFields := some { pchCommand := command, nPayloadLength := n }
            complete := true } := by
        rw [hh, mkHeader, if_pos hge]
      have hlen : H.length = EXTENDED_HEADER_SIZE := by
        rw [hH]
        exact serializeHeader_length_extended h
          { pchCommand := command, nPayloadLength := n }
          (by rw [hrec]; exact hm) (by rw [hrec]; rfl) (by rw [hrec]; exact hcs)
          (by rw [hrec]) hc
      refine ⟨?_, ?_, ?_⟩
      · rw [hlen]
        exact parse_serialize_extended config.magic command cs n hm hc hcs hge hn64
      · simp [CMessageHeader.IsValid, hrec, hcmd]
        decide
      · simp [CMessageHeader.IsOversized, CMessageHeader.GetCommand,
          CMessageHeader.GetPayloadLength, hrec]
        exact hover
  obtain ⟨hparse, hvalid, hoversize⟩ := hfacts
  have hH24 : BASIC_HEADER_SIZE ≤ H.length := by
    by_contra hlt
    rw [parseHeaderBytes_none_short H (Nat.not_le.mp hlt)] at hparse
    exact Option.noConfusion hparse
  have hHne : H ≠ [] := by
    intro he
    rw [he] at hH24
    simp [BASIC_HEADER_SIZE, MESSAGE_START_SIZE, COMMAND_SIZE,
      BASIC_MESSAGE_SIZE_SIZE, CHECKSUM_SIZE] at hH24
  have hdlen : H.dropLast.length = H.length - 1 := List.length_dropLast H
  have hsplit : H.dropLast ++ [H.getLast hHne] = H :=
    List.dropLast_append_getLast hHne
  have hB24 : (BASIC_HEADER_SIZE : Nat) = 24 := rfl
  have hnp : ∀ k : Nat, 1 ≤ k → k ≤ H.dropLast.length →
      parseHeaderBytes ((initNetMessage config.magic).hdrBuf ++ H.dropLast.take k) =
        none := by
    intro k h1 h2
    have htake : H.dropLast.take k = H.take k := by
      rw [List.dropLast_eq_take, List.take_take]
      congr 1
      omega
    have : (initNetMessage config.magic).hdrBuf = [] := rfl
    rw [this, List.nil_append, htake]
    exact parseHeaderBytes_take_none H h k hparse (by omega)
  have hfeed1 := feed_no_parse config H.dropLast (initNetMessage config.magic)
    rfl rfl hnp
  have hA : ({ initNetMessage config.magic with
      hdrBuf := (initNetMessage config.magic).hdrBuf ++ H.dropLast } : CNetMessage) =
      { hdrBuf := H.dropLast
        hdr := initHeader config.magic
        dataBuff := []
        hasherBytes := []
        banned := none } := by
    simp [initNetMessage]
  rw [hA] at hfeed1
  have hparseA : parseHeaderBytes
      (({ hdrBuf := H.dropLast
          hdr := initHeader config.magic
          dataBuff := []
          hasherBytes := []
          banned := none } : CNetMessage).hdrBuf ++ [H.getLast hHne]) =
      some (h, H.length) := by
    show parseHeaderBytes (H.dropLast ++ [H.getLast hHne]) = _
    rw [hsplit]
    exact hparse
  have hfeed2 := feed_oversized_last config
    { hdrBuf := H.dropLast
      hdr := initHeader config.magic
      dataBuff := []
      hasherBytes := []
      banned := none } (H.getLast hHne) payload h H.length
    rfl rfl hparseA hvalid hoversize
  have hcomb : H ++ payload = H.dropLast ++ (H.getLast hHne :: payload) := by
    conv_lhs => rw [← hsplit]
    simp
  rw [hcomb, feed_append, hfeed1]
  simp only at hfeed2 ⊢
  rw [hfeed2]
  refine Prod.ext ?_ ?_
  · show ({ hdrBuf := H.dropLast ++ [H.getLast hHne]
            hdr := h
            dataBuff := []
            hasherBytes := []
            banned := some BanReason.oversized } : CNetMessage) = _
    rw [hsplit]
  · show H.dropLast.length + 1 = H.length
    omega

/-- Witness for C3: a basic header declaring 11 payload bytes against a
10-byte ceiling is banned as oversized with nothing buffered. -/
theorem claim_C3_oversized_ban_witness :
    feed tinyConfig (initNetMessage tinyConfig.magic)
        (serializeHeader (mkHeader tinyConfig.magic
          [112, 105, 110, 103, 0, 0, 0, 0, 0, 0, 0, 0] 11 [9, 9, 9, 9]) ++
          [42, 42, 42]) =
      ({ hdrBuf := serializeHeader (mkHeader tinyConfig.magic
            [112, 105, 110, 103, 0, 0, 0, 0, 0, 0, 0, 0] 11 [9, 9, 9, 9])
         hdr := mkHeader tinyConfig.magic
            [112, 105, 110, 103, 0, 0, 0, 0, 0, 0, 0, 0] 11 [9, 9, 9, 9]
         dataBuff := []
         hasherBytes := []
         banned := some BanReason.oversized },
        (serializeHeader (mkHeader tinyConfig.magic
          [112, 105, 110, 103, 0, 0, 0, 0, 0, 0, 0, 0] 11 [9, 9, 9, 9])).length) :=
  claim_C3_oversized_ban tinyConfig
    [112, 105, 110, 103, 0, 0, 0, 0, 0, 0, 0, 0] [9, 9, 9, 9] [42, 42, 42] 11
    (by decide) (by decide) (by decide) (by decide) (by norm_num) (by decide)

end MVC

